import Mathlib

/-!
# PromML: the recurrent network of `network/rnn/rnn.go`

A shallow embedding of the Go package `rnn` and of the few `gonum/mat`
operations it calls.

* `float64` is modelled by an arbitrary linearly ordered field `F`; the
  transcendental functions (`math.Tanh`, `math.Log`, `math.Sqrt`, the matrix
  exponential behind `mat.Dense.Exp`) and the random source are parameters.
* Go `int` is modelled by `Int`. `New`, which receives arbitrary sizes,
  multiplies them with the wrap-around of a 64-bit `int` and allocates within
  the limit of `make`; elsewhere sizes are those of a network already built
  and no overflow is modelled.
* A Go panic is a value of `GoPanic`; every operation that can panic returns
  `Except GoPanic _`.
* A `*mat.VecDense` that may be nil is an `Option (Vec F)`; a slice
  `[]*mat.VecDense` is a list of those, the nil slice being `[]`.
* `Train` and `backward` contain three statements that are not complete Go
  (`forward()` without receiver or arguments, `vec1.MulVec()` without
  arguments, the assignment of a `*mat.Dense` to `hprev`); how each is read
  is said at the definition that embeds it.
-/

namespace PromML

/-! ## Run-time failures -/

/-- Panics the program can raise: the Go run-time ones (slice index, nil
pointer, `make` with a length out of range), the `gonum/mat` ones, named as
in that library, and the panic of gonum's `blas` copy on a vector with
increment zero. -/
inductive GoPanic where
  | indexOutOfRange (i : Int) (len : Nat)
  | nilDereference
  | makeLenOutOfRange
  | ErrZeroLength
  | ErrNegativeDimension
  | ErrShape
  | ErrRowAccess
  | ErrColAccess
  | ErrVectorAccess
  | blasZeroIncrement
  deriving DecidableEq, Repr

/-! ## Go slices and pointers -/

/-- Slice read `s[i]`: a run-time panic unless `0 ≤ i < len(s)`. -/
def sliceGet {α : Type} (s : List α) (i : Int) : Except GoPanic α :=
  if i < 0 then .error (.indexOutOfRange i s.length)
  else
    match s[i.toNat]? with
    | some x => .ok x
    | none => .error (.indexOutOfRange i s.length)

/-- Slice write `s[i] = x`: a run-time panic unless `0 ≤ i < len(s)`. -/
def sliceSet {α : Type} (s : List α) (i : Int) (x : α) : Except GoPanic (List α) :=
  if 0 ≤ i ∧ i.toNat < s.length then .ok (s.set i.toNat x)
  else .error (.indexOutOfRange i s.length)

/-- Use of the object behind a pointer: a nil pointer panics. -/
def deref {α : Type} (p : Option α) : Except GoPanic α :=
  match p with
  | some x => .ok x
  | none => .error .nilDereference

/-- The value of a Go `int` result on a 64-bit platform: arithmetic wraps
around into `[-2^63, 2^63)`. -/
def wrap64 (x : Int) : Int := (x + 2 ^ 63) % 2 ^ 64 - 2 ^ 63

/-- The largest length `make([]float64, n)` accepts on a 64-bit platform
(linux/amd64): `maxAlloc / 8 = 2^45` elements. -/
def maxSliceLen : Int := 2 ^ 45

/-- The length check of `make([]float64, n)`: a panic (`makeslice: len out of
range`) for a negative `n` and for `n` above `maxSliceLen`. Running out of
memory below that limit is not modelled. -/
def allocCheck (n : Int) : Except GoPanic Unit :=
  if n < 0 ∨ maxSliceLen < n then .error .makeLenOutOfRange else .ok ()

/-- The allocation `make([]float64, n)`: `n` zeros when the length is
accepted. -/
def makeSlice {F : Type} [Zero F] (n : Int) : Except GoPanic (List F) := do
  allocCheck n
  pure (List.replicate n.toNat 0)

/-! ## The part of `gonum/mat` the package uses -/

/-- The contents of a `mat.VecDense`. -/
abbrev Vec (F : Type) := List F

/-- The contents of a `mat.Dense`: dimensions and row-major data. -/
structure Dense (F : Type) where
  rows : Nat
  cols : Nat
  data : List F
  deriving DecidableEq, Repr

section Gonum

variable {F : Type} [LinearOrderedField F]

/-- The call `mat.NewVecDense(n, nil)`: a zero vector of length `n`; panics
when `n` is zero or negative. -/
def NewVecDense (n : Int) : Except GoPanic (Vec F) :=
  if n = 0 then .error .ErrZeroLength
  else if n < 0 then .error .ErrNegativeDimension
  else .ok (List.replicate n.toNat 0)

/-- The call `mat.NewVecDense(n, nil)` with an arbitrary `n`: the checks of
`NewVecDense` on the sign of `n`, then the length check of its allocation,
which `NewVecDense` leaves out. -/
def NewVecDenseChecked (n : Int) : Except GoPanic (Vec F) :=
  if 0 < n then do
    allocCheck n
    NewVecDense n
  else NewVecDense n

/-- The call `mat.NewDense(r, c, data)`: panics when a dimension is zero or
negative, or when `data` is not nil and `len(data) != r*c`, the product being
that of two Go `int`s; with a nil `data` the matrix is zero, otherwise `data`
itself is the backing slice. -/
def NewDense (r c : Int) (data : Option (List F)) : Except GoPanic (Dense F) :=
  if r = 0 ∨ c = 0 then .error .ErrZeroLength
  else if r < 0 ∨ c < 0 then .error .ErrNegativeDimension
  else
    match data with
    | some d =>
      if wrap64 (r * c) ≠ (d.length : Int) then .error .ErrShape
      else .ok ⟨r.toNat, c.toNat, d⟩
    | none => .ok ⟨r.toNat, c.toNat, List.replicate (r * c).toNat 0⟩

/-- The method `v.AtVec(i)`: panics with `ErrRowAccess` out of bounds. -/
def AtVec (v : Vec F) (i : Int) : Except GoPanic F :=
  if i < 0 then .error .ErrRowAccess
  else
    match v[i.toNat]? with
    | some x => .ok x
    | none => .error .ErrRowAccess

/-- The method `v.SetVec(i, val)`: panics with `ErrVectorAccess` out of
bounds; the result is the vector after the in-place write. -/
def SetVec (v : Vec F) (i : Int) (val : F) : Except GoPanic (Vec F) :=
  if 0 ≤ i ∧ i.toNat < v.length then .ok (v.set i.toNat val)
  else .error .ErrVectorAccess

/-- The view `v.T()`: the `1 × N` transpose of a column vector. -/
def VecT (v : Vec F) : Dense F := ⟨1, v.length, v⟩

/-- The view `d.T()` of a dense matrix. -/
def DenseT (d : Dense F) : Dense F :=
  ⟨d.cols, d.rows,
    (List.range d.cols).flatMap fun j =>
      (List.range d.rows).map fun i => d.data.getD (i * d.cols + j) 0⟩

/-- The function `mat.Max`: the largest entry; panics with `ErrZeroLength` on
a matrix without entries. -/
def matMax (m : Dense F) : Except GoPanic F :=
  if m.rows = 0 ∨ m.cols = 0 then .error .ErrZeroLength
  else
    match m.data with
    | [] => .error .ErrZeroLength
    | x :: rest => .ok (rest.foldl max x)

/-- The function `mat.Sum`: the sum of all entries. -/
def matSum (m : Dense F) : F := m.data.sum

/-- The method `d.Exp(a)`: the matrix exponential of `a`, which panics with
`ErrShape` unless `a` is square. The exponential of a square matrix is the
parameter `mexp`. -/
def DenseExp (mexp : Dense F → Dense F) (a : Dense F) : Except GoPanic (Dense F) :=
  if a.rows ≠ a.cols then .error .ErrShape else .ok (mexp a)

/-- The method `d.ColView(j)`: column `j`; panics with `ErrColAccess` unless
`0 ≤ j < cols`. -/
def ColView (d : Dense F) (j : Int) : Except GoPanic (Vec F) :=
  if j < 0 ∨ (d.cols : Int) ≤ j then .error .ErrColAccess
  else .ok ((List.range d.rows).map fun i => d.data.getD (i * d.cols + j.toNat) 0)

/-- The function `mat.VecDenseCopyOf`: a fresh copy. -/
def VecDenseCopyOf (v : Vec F) : Vec F := v

/-- The method `recv.MulVec(a, b)`: the product `a·b` stored in the receiver.
The dimensions of `a` and `b` are read first (a nil `b` panics), a mismatch is
`ErrShape`, then the receiver is written: a nil receiver panics, and a
receiver that is not empty and whose length is not the number of rows of `a`
is `ErrShape`. -/
def MulVec (recv : Option (Vec F)) (a : Dense F) (b : Option (Vec F)) :
    Except GoPanic (Vec F) := do
  let bv ← deref b
  if a.cols ≠ bv.length then .error .ErrShape
  else do
    let rv ← deref recv
    if rv.length ≠ 0 ∧ rv.length ≠ a.rows then .error .ErrShape
    else
      pure ((List.range a.rows).map fun i =>
        (List.zipWith (· * ·) ((a.data.drop (i * a.cols)).take a.cols) bv).sum)

/-- The method `recv.AddVec(a, b)`: the sum `a + b` stored in the receiver;
the lengths are read first (nil panics), a mismatch is `ErrShape`, then the
receiver is written: a nil receiver panics, and a receiver that is not empty
and whose length is not that of `a` is `ErrShape`. -/
def AddVec (recv : Option (Vec F)) (a b : Option (Vec F)) : Except GoPanic (Vec F) := do
  let av ← deref a
  let bv ← deref b
  if bv.length ≠ av.length then .error .ErrShape
  else do
    let rv ← deref recv
    if rv.length ≠ 0 ∧ rv.length ≠ av.length then .error .ErrShape
    else pure (List.zipWith (· + ·) av bv)

/-- The method `recv.CopyVec(a)`: copies the first `min(len(recv), len(a))`
entries of `a` into the receiver; the result is the receiver afterwards. An
empty vector has increment zero, on which the copy of gonum's `blas`
panics. -/
def CopyVec (recv : Option (Vec F)) (a : Option (Vec F)) : Except GoPanic (Vec F) := do
  let rv ← deref recv
  let av ← deref a
  if rv.length = 0 ∨ av.length = 0 then .error .blasZeroIncrement
  else
    let k := min rv.length av.length
    pure (av.take k ++ rv.drop k)

end Gonum

/-! ## `apply` and `softmax` (rnn.go, lines 116-133 and 155-159) -/

section Core

variable {F : Type} [LinearOrderedField F]

/-- The loop of `apply` from index `i`, with `k = v.Len() - i` iterations
left: each iteration reads `v.AtVec(i)` and writes `a` of it with
`v.SetVec(1, _)`, at the constant index `1`. -/
def applyLoop (a : F → F) : Nat → Nat → Vec F → Except GoPanic (Vec F)
  | 0, _, v => .ok v
  | k + 1, i, v => do
    let x ← AtVec v i
    let v1 ← SetVec v 1 (a x)
    applyLoop a k (i + 1) v1

/-- The function `apply(v, a)`; the result is `v` after the in-place loop. -/
def apply (v : Vec F) (a : F → F) : Except GoPanic (Vec F) :=
  applyLoop a v.length 0 v

/-- The function `softmax(v)`. The result is the caller's vector after the
call: `apply` writes it in place, while the later assignment
`v = mat.VecDenseCopyOf(..)` rebinds the local name only, so the last `apply`
works on a copy. -/
def softmax (mexp : Dense F → Dense F) (v : Vec F) : Except GoPanic (Vec F) := do
  let m := VecT v
  let max ← matMax m
  let v1 ← apply v (fun n => n - max)
  let d ← DenseExp mexp (VecT v1)
  let col ← ColView d 1
  let vLocal := VecDenseCopyOf col
  let _ ← apply vLocal (fun n => n / matSum (DenseT d))
  pure v1

/-! ## The network and `New` (rnn.go, lines 12-57) -/

/-- The struct `RNN`: sizes, the three weight matrices, the two biases. -/
structure RNN (F : Type) where
  hiddenSize : Int
  inputSize : Int
  seqLength : Int
  learningRate : Int
  u : Dense F
  v : Dense F
  w : Dense F
  b : Vec F
  c : Vec F
  deriving DecidableEq, Repr

/-- The loop `for i := range src { dst[i] = lo + rand.Float64()*width }` with
`k` iterations left from index `i`; `rnd j` is the value of the `j`-th call of
`rand.Float64()` and `k0` the number of calls made before the loop. The write
`dst[i]` panics when `i` is not an index of `dst`. -/
def fillLoop (lo width : F) (rnd : Nat → F) (k0 : Nat) :
    Nat → Nat → List F → Except GoPanic (List F)
  | 0, _, dst => .ok dst
  | k + 1, i, dst => do
    let dst1 ← sliceSet dst i (lo + rnd (k0 + i) * width)
    fillLoop lo width rnd k0 k (i + 1) dst1

/-- The constructor `New(hiddenSize, inputSize, seqLength, learningRate)`.
`sqrt` stands for `math.Sqrt`. The third loop ranges over `vNums` while
writing `wNums`, and `w` is built over `vNums`, as in the source. The three
products are products of Go `int`s, and the allocation of the vectors `b` and
`c` inside `mat.NewVecDense` is checked for its length. -/
def New (sqrt : F → F) (rnd : Nat → F)
    (hiddenSize inputSize seqLength learningRate : Int) : Except GoPanic (RNN F) := do
  let num1 := sqrt (1 / (inputSize : F))
  let num2 := sqrt (1 / (hiddenSize : F))
  let uNums ← makeSlice (wrap64 (hiddenSize * inputSize))
  let uNums ← fillLoop (-num1) (2 * num1) rnd 0 uNums.length 0 uNums
  let u ← NewDense hiddenSize inputSize (some uNums)
  let vNums ← makeSlice (wrap64 (inputSize * hiddenSize))
  let vNums ← fillLoop (-num2) (2 * num2) rnd uNums.length vNums.length 0 vNums
  let v ← NewDense inputSize hiddenSize (some vNums)
  let wNums ← makeSlice (wrap64 (hiddenSize * hiddenSize))
  let _wNums ← fillLoop (-num2) (2 * num2) rnd (uNums.length + vNums.length)
    vNums.length 0 wNums
  let w ← NewDense hiddenSize hiddenSize (some vNums)
  let b ← NewVecDenseChecked hiddenSize
  let c ← NewVecDenseChecked inputSize
  pure { hiddenSize := hiddenSize, inputSize := inputSize, seqLength := seqLength,
         learningRate := learningRate, u := u, v := v, w := w, b := b, c := c }

/-! ## `forward` (rnn.go, lines 83-114) -/

/-- The three sequences `forward` returns. -/
structure Trace (F : Type) where
  xs : List (Option (Vec F))
  hs : List (Option (Vec F))
  ycap : List (Option (Vec F))
  deriving DecidableEq, Repr

/-- The variables of `forward`: the named results `xs`, `hs`, `ycap` and the
locals `os`, `vec1`, `vec2`. -/
structure FwdState (F : Type) where
  xs : List (Option (Vec F))
  hs : List (Option (Vec F))
  ycap : List (Option (Vec F))
  os : List (Option (Vec F))
  vec1 : Option (Vec F)
  vec2 : Option (Vec F)
  deriving DecidableEq, Repr

/-- The state in which the body of `forward` starts: named results and
`var` declarations without initialiser are nil slices and nil pointers. -/
def fwdInit : FwdState F := ⟨[], [], [], [], none, none⟩

/-- The first two statements of the loop body of `forward`, the one-hot
encoding of `input` in slot `t` of `xs`: `xs[t] = mat.NewVecDense(n.inputSize,
nil)` and `xs[t].SetVec(input, 1)`; the result is `xs` afterwards. -/
def encodeStep (n : RNN F) (xs : List (Option (Vec F))) (t : Nat) (input : Int) :
    Except GoPanic (List (Option (Vec F))) := do
  -- xs[t] = mat.NewVecDense(n.inputSize, nil)
  let x ← NewVecDense n.inputSize
  let xs ← sliceSet xs t (some x)
  -- xs[t].SetVec(input, 1)
  let xp ← sliceGet xs t
  let xv ← deref xp
  let xv ← SetVec xv input 1
  sliceSet xs t (some xv)

/-- One iteration of the loop of `forward`, at index `t` with token `input`.
`tanh` stands for `math.Tanh`. -/
def forwardStep (tanh : F → F) (mexp : Dense F → Dense F) (n : RNN F)
    (st : FwdState F) (t : Nat) (input : Int) : Except GoPanic (FwdState F) := do
  -- xs[t] = mat.NewVecDense(n.inputSize, nil); xs[t].SetVec(input, 1)
  let xs ← encodeStep n st.xs t input
  -- vec1.MulVec(n.u, xs[t])
  let xp ← sliceGet xs t
  let v1 ← MulVec st.vec1 n.u xp
  -- vec2.MulVec(n.w, hs[t])
  let hp ← sliceGet st.hs t
  let v2 ← MulVec st.vec2 n.w hp
  -- vec1.AddVec(vec1, vec2); vec1.AddVec(vec1, n.b)
  let v1 ← AddVec (some v1) (some v1) (some v2)
  let v1 ← AddVec (some v1) (some v1) (some n.b)
  -- apply(vec1, tanh)
  let v1 ← apply v1 tanh
  -- hs[t].CopyVec(vec1)
  let hp ← sliceGet st.hs t
  let hv ← CopyVec hp (some v1)
  let hs ← sliceSet st.hs t (some hv)
  -- vec1.MulVec(n.v, hs[t])
  let hp ← sliceGet hs t
  let v1 ← MulVec (some v1) n.v hp
  -- os[t].CopyVec(vec1)
  let op ← sliceGet st.os t
  let ov ← CopyVec op (some v1)
  let os ← sliceSet st.os t (some ov)
  -- ycap[t].CopyVec(os[t])
  let yp ← sliceGet st.ycap t
  let op ← sliceGet os t
  let yv ← CopyVec yp op
  -- softmax(ycap[t])
  let yv ← softmax mexp yv
  let ycap ← sliceSet st.ycap t (some yv)
  pure { xs := xs, hs := hs, ycap := ycap, os := os, vec1 := some v1, vec2 := some v2 }

/-- The loop `for t, input := range inputs` of `forward`, from index `t`. -/
def forwardLoop (tanh : F → F) (mexp : Dense F → Dense F) (n : RNN F) :
    List Int → Nat → FwdState F → Except GoPanic (FwdState F)
  | [], _, st => .ok st
  | input :: rest, t, st => do
    let st1 ← forwardStep tanh mexp n st t input
    forwardLoop tanh mexp n rest (t + 1) st1

/-- The method `n.forward(inputs, hprev)`. -/
def forward (tanh : F → F) (mexp : Dense F → Dense F) (n : RNN F)
    (inputs : List Int) (hprev : Vec F) : Except GoPanic (Trace F) := do
  let st : FwdState F := fwdInit
  -- hs[0].CopyVec(hprev)
  let hp ← sliceGet st.hs 0
  let hv ← CopyVec hp (some hprev)
  let hs ← sliceSet st.hs 0 (some hv)
  let st ← forwardLoop tanh mexp n inputs 0 { st with hs := hs }
  pure ⟨st.xs, st.hs, st.ycap⟩

/-! ## `Train` (rnn.go, lines 59-81) -/

/-- The result of one call of the `reader`: `(inputs, targets, restart)`. -/
abbrev Window := List Int × List Int × Bool

/-- The variables of `Train` that its loop reads or writes (`threshold` is a
constant, `i` is never used), with `reads`, the number of calls of the data
source made so far. -/
structure TrainState (F : Type) where
  smooth_loss : F
  hprev : Vec F
  restart : Bool
  inputs : List Int
  targets : List Int
  reads : Nat
  deriving DecidableEq, Repr

/-- The constant `threshold = 0.01` of `Train`. -/
def threshold : F := 1 / 100

/-- The `var` block of `Train`: `log` stands for `math.Log`; `restart`,
`inputs` and `targets` start at their zero values. -/
def trainInit (log : F → F) (n : RNN F) : Except GoPanic (TrainState F) := do
  let hprev ← NewVecDense n.hiddenSize
  pure { smooth_loss := -log (1 / (n.inputSize : F)), hprev := hprev,
         restart := false, inputs := [], targets := [], reads := 0 }

/-- The statement `if restart { hprev = mat.NewDense(n.hiddenSize, 1, nil) }`
at the top of the loop of `Train`: the value of `hprev` after it. The
`hiddenSize × 1` zero matrix is taken as the column vector of its entries. -/
def trainReset (n : RNN F) (s : TrainState F) : Except GoPanic (Vec F) :=
  if s.restart then (NewDense n.hiddenSize 1 none).map (·.data) else .ok s.hprev

/-- The body of the loop of `Train`. The `k`-th call of the data source
returns `reader k`. The source writes the call of the forward pass as
`forward()`, without receiver and without arguments; it is the parameter `fwd`,
which may depend on every variable of `Train`, and `trainFwd` below is the
forward pass of the package in its place. The state returned is the one in
which `forward()` was called: nothing is assigned after the call. -/
def trainBody (n : RNN F) (reader : Nat → Window)
    (fwd : TrainState F → Except GoPanic (Trace F)) (s : TrainState F) :
    Except GoPanic (TrainState F) := do
  -- if restart { hprev = mat.NewDense(n.hiddenSize, 1, nil) }
  let hprev ← trainReset n s
  -- inputs, targets, restart = read()
  let w := reader s.reads
  let s1 : TrainState F :=
    { s with hprev := hprev, inputs := w.1, targets := w.2.1, restart := w.2.2,
             reads := s.reads + 1 }
  -- xs, hs, ps := forward()
  let _ ← fwd s1
  pure s1

/-- The first `k` passes through the loop `for smooth_loss > threshold` from
state `s`: the state after them, or `none` when the loop was left earlier. -/
def trainIter (n : RNN F) (reader : Nat → Window)
    (fwd : TrainState F → Except GoPanic (Trace F)) :
    Nat → TrainState F → Except GoPanic (Option (TrainState F))
  | 0, s => .ok (some s)
  | k + 1, s =>
    if threshold < s.smooth_loss then do
      let s1 ← trainBody n reader fwd s
      trainIter n reader fwd k s1
    else .ok none

/-- The loop of `Train` run for at most `fuel` passes: the state in which the
guard fails, or `none` when the loop is still running. -/
def trainLoop (n : RNN F) (reader : Nat → Window)
    (fwd : TrainState F → Except GoPanic (Trace F)) :
    Nat → TrainState F → Except GoPanic (Option (TrainState F))
  | 0, _ => .ok none
  | fuel + 1, s =>
    if threshold < s.smooth_loss then do
      let s1 ← trainBody n reader fwd s
      trainLoop n reader fwd fuel s1
    else .ok (some s)

/-- The method `n.Train(read)`, run for at most `fuel` passes of its loop. -/
def Train (log : F → F) (n : RNN F) (reader : Nat → Window)
    (fwd : TrainState F → Except GoPanic (Trace F)) (fuel : Nat) :
    Except GoPanic (Option (TrainState F)) := do
  let s0 ← trainInit log n
  trainLoop n reader fwd fuel s0

/-- The body of the loop of `Train` up to the call of the forward pass: the
reset, then the call of the data source. The result is the state in which
`forward()` is called. -/
def trainCall (n : RNN F) (reader : Nat → Window) (s : TrainState F) :
    Except GoPanic (TrainState F) := do
  -- if restart { hprev = mat.NewDense(n.hiddenSize, 1, nil) }
  let hprev ← trainReset n s
  -- inputs, targets, restart = read()
  let w := reader s.reads
  pure { s with hprev := hprev, inputs := w.1, targets := w.2.1, restart := w.2.2,
                reads := s.reads + 1 }

/-- The forward pass of the package as `Train` calls it. The source writes
`forward()`; the only function of that name is the method `forward`, taken
here on the network, on the window just read and on `hprev`. -/
def trainFwd (tanh : F → F) (mexp : Dense F → Dense F) (n : RNN F) :
    TrainState F → Except GoPanic (Trace F) :=
  fun s => forward tanh mexp n s.inputs s.hprev

/-- The states in which `forward()` is called during the first `fuel` passes
of the loop of `Train` from state `s`, in order; the list ends where the loop
is left or a panic is raised. -/
def trainCalls (n : RNN F) (reader : Nat → Window)
    (fwd : TrainState F → Except GoPanic (Trace F)) :
    Nat → TrainState F → List (TrainState F)
  | 0, _ => []
  | fuel + 1, s =>
    if threshold < s.smooth_loss then
      match trainCall n reader s with
      | .error _ => []
      | .ok s1 =>
        match fwd s1 with
        | .error _ => [s1]
        | .ok _ => s1 :: trainCalls n reader fwd fuel s1
    else []

/-! ## `backward` (rnn.go, lines 135-153) -/

/-- The gradient accumulators declared by `backward`. -/
structure Grads (F : Type) where
  dU : Dense F
  dV : Dense F
  dW : Dense F
  dB : Vec F
  dC : Vec F
  dHNext : Vec F
  deriving DecidableEq, Repr

/-- The variables of `backward`: the accumulators and the pointers `dy` and
`vec1`, declared without initialiser. -/
structure BackState (F : Type) where
  grads : Grads F
  dy : Option (Vec F)
  vec1 : Option (Vec F)
  deriving DecidableEq, Repr

/-- The `var` block of `backward`: zero accumulators of the parameters'
shapes, nil `dy` and `vec1`. -/
def backwardInit (n : RNN F) : Except GoPanic (BackState F) := do
  let dU ← NewDense n.hiddenSize n.inputSize none
  let dV ← NewDense n.inputSize n.hiddenSize none
  let dW ← NewDense n.hiddenSize n.hiddenSize none
  let dB ← NewVecDense n.hiddenSize
  let dC ← NewVecDense n.inputSize
  let dHNext ← NewVecDense n.hiddenSize
  pure { grads := ⟨dU, dV, dW, dB, dC, dHNext⟩, dy := none, vec1 := none }

/-- One iteration of the loop of `backward`, at index `t`. The last statement
of the source, `vec1.MulVec()`, has no arguments; it is modelled by the use of
its receiver alone. -/
def backwardStep (hs : List (Option (Vec F))) (targets : List Int)
    (st : BackState F) (t : Int) : Except GoPanic (BackState F) := do
  -- dy.CopyVec(hs[t])
  let hp ← sliceGet hs t
  let dy ← CopyVec st.dy hp
  -- dy.SetVec(targets[t], dy.AtVec(targets[t])-1)
  let i ← sliceGet targets t
  let j ← sliceGet targets t
  let old ← AtVec dy j
  let dy ← SetVec dy i (old - 1)
  -- vec1.MulVec()
  let v1 ← deref st.vec1
  pure { st with dy := some dy, vec1 := some v1 }

/-- The values of `t` visited by `for t := n.seqLength; t >= 0; t--`, in
order: `seqLength, seqLength - 1, ..., 0`, none when `seqLength < 0`. -/
def backwardIndices (seqLength : Int) : List Int :=
  (List.range (seqLength + 1).toNat).reverse.map fun k => (k : Int)

/-- The loop of `backward` over the indices still to visit. -/
def backwardLoop (hs : List (Option (Vec F))) (targets : List Int) :
    List Int → BackState F → Except GoPanic (BackState F)
  | [], st => .ok st
  | t :: rest, st => do
    let st1 ← backwardStep hs targets st t
    backwardLoop hs targets rest st1

/-- The method `n.backward(xs, hs, ps, targets)`. The Go function returns
nothing; the result here is the value of its local variables when it
returns. -/
def backward (n : RNN F) (_xs hs _ps : List (Option (Vec F))) (targets : List Int) :
    Except GoPanic (BackState F) := do
  let st ← backwardInit n
  backwardLoop hs targets (backwardIndices n.seqLength) st

/-- All entries of the five gradient accumulators of the parameters. -/
def Grads.entries (g : Grads F) : List F :=
  g.dU.data ++ g.dV.data ++ g.dW.data ++ g.dB ++ g.dC

end Core

/-! ## Concrete data used in the evaluations below -/

/-- A network with two hidden units and two tokens, of the kind `New 2 2 1 1`
returns: `w` has the entries of `v`, the biases are zero. -/
def exRNN : RNN ℚ :=
  { hiddenSize := 2, inputSize := 2, seqLength := 1, learningRate := 1,
    u := ⟨2, 2, [1/2, -1/2, 1/4, 0]⟩,
    v := ⟨2, 2, [1/2, 0, -1/4, 1/2]⟩,
    w := ⟨2, 2, [1/2, 0, -1/4, 1/2]⟩,
    b := [0, 0], c := [0, 0] }

/-- A data source whose every window is `([0], [1])` with `restart = true`. -/
def exReader : Nat → Window := fun _ => ([0], [1], true)

/-- A network over the reals with one hidden unit and one token, all weights
zero. -/
def exRNNRealOne : RNN ℝ :=
  { hiddenSize := 1, inputSize := 1, seqLength := 1, learningRate := 1,
    u := ⟨1, 1, [0]⟩, v := ⟨1, 1, [0]⟩, w := ⟨1, 1, [0]⟩, b := [0], c := [0] }

/-- A network over the reals with two hidden units and two tokens, all
weights zero. -/
def exRNNRealTwo : RNN ℝ :=
  { hiddenSize := 2, inputSize := 2, seqLength := 1, learningRate := 1,
    u := ⟨2, 2, [0, 0, 0, 0]⟩, v := ⟨2, 2, [0, 0, 0, 0]⟩, w := ⟨2, 2, [0, 0, 0, 0]⟩,
    b := [0, 0], c := [0, 0] }

/-- A forward pass over the reals that returns an empty trace. -/
def exFwdReal : TrainState ℝ → Except GoPanic (Trace ℝ) :=
  fun _ => .ok ⟨[], [], []⟩

/-! ## Lemmas on slices and on the `gonum/mat` operations -/

section Basic

variable {F : Type}

theorem sliceSet_natCast {α : Type} (s : List α) (t : Nat) (x : α) (h : t < s.length) :
    sliceSet s (t : Int) x = .ok (s.set t x) := by
  have h0 : (0 : Int) ≤ (t : Int) := by omega
  simp [sliceSet, h0, h]

theorem sliceGet_set_natCast {α : Type} (s : List α) (t : Nat) (x : α) (h : t < s.length) :
    sliceGet (s.set t x) (t : Int) = .ok x := by
  have h0 : ¬ ((t : Int) < 0) := by omega
  simp [sliceGet, h0, h]

theorem AtVec_natCast (v : Vec F) (i : Nat) (h : i < v.length) :
    AtVec v (i : Int) = .ok (v.get ⟨i, h⟩) := by
  have h0 : ¬ ((i : Int) < 0) := by omega
  simp [AtVec, h0, List.getElem?_eq_getElem h]

theorem SetVec_one (v : Vec F) (h : 2 ≤ v.length) (x : F) :
    SetVec v 1 x = .ok (v.set 1 x) := by
  have h1 : 1 < v.length := by omega
  simp [SetVec, h1]

/-! ## Lemmas on `apply` -/

theorem applyLoop_ok (a : F → F) :
    ∀ (k i : Nat) (v : Vec F), 2 ≤ v.length → i + k ≤ v.length →
      ∃ v1, applyLoop a k i v = .ok v1 ∧ v1.length = v.length := by
  intro k
  induction k with
  | zero => intro i v _ _; exact ⟨v, rfl, rfl⟩
  | succ k ih =>
    intro i v h2 hik
    have hi : i < v.length := by omega
    obtain ⟨v1, hv1, hlen⟩ := ih (i + 1) (v.set 1 (a (v.get ⟨i, hi⟩))) (by simpa using h2)
      (by simp; omega)
    refine ⟨v1, ?_, by simpa using hlen⟩
    simp only [applyLoop, AtVec_natCast v i hi, SetVec_one v h2, bind, Except.bind]
    exact hv1

theorem apply_ok (a : F → F) (v : Vec F) (h : 2 ≤ v.length) :
    ∃ v1, apply v a = .ok v1 ∧ v1.length = v.length :=
  applyLoop_ok a v.length 0 v h (by omega)

theorem apply_singleton (a : F → F) (x : F) : apply [x] a = .error .ErrVectorAccess := by
  simp [apply, applyLoop, AtVec, SetVec, bind, Except.bind]

theorem applyLoop_last (a : F → F) :
    ∀ (k i : Nat) (v : Vec F) (_ : 2 ≤ v.length) (hik : i + k < v.length), i + k ≠ 1 →
      applyLoop a (k + 1) i v = .ok (v.set 1 (a (v.get ⟨i + k, hik⟩))) := by
  intro k
  induction k with
  | zero =>
    intro i v h2 hik _
    simp only [applyLoop, AtVec_natCast v i hik, SetVec_one v h2, bind, Except.bind]
    rfl
  | succ k ih =>
    intro i v h2 hik hne
    have hi : i < v.length := by omega
    have hlen : (v.set 1 (a (v.get ⟨i, hi⟩))).length = v.length := by simp
    have step : applyLoop a (k + 1 + 1) i v =
        applyLoop a (k + 1) (i + 1) (v.set 1 (a (v.get ⟨i, hi⟩))) := by
      simp only [applyLoop, AtVec_natCast v i hi, SetVec_one v h2, bind, Except.bind]
    rw [step, ih (i + 1) _ (by omega) (by omega) (by omega)]
    have hidx : i + 1 + k = i + (k + 1) := by omega
    simp only [List.get_eq_getElem, hidx, List.set_set]
    rw [List.getElem_set_ne (by omega)]

theorem apply_three_or_more (a : F → F) (v : Vec F) (h : 3 ≤ v.length) :
    apply v a = .ok (v.set 1 (a (v.get ⟨v.length - 1, by omega⟩))) := by
  obtain ⟨m, hm⟩ : ∃ m, v.length = m + 3 := ⟨v.length - 3, by omega⟩
  have key := applyLoop_last a (m + 2) 0 v (by omega) (by omega) (by omega)
  have e1 : v.length = m + 2 + 1 := by omega
  have e2 : apply v a = applyLoop a (m + 2 + 1) 0 v :=
    congrArg (fun k => applyLoop a k 0 v) e1
  rw [e2, key]
  have e3 : 0 + (m + 2) = v.length - 1 := by omega
  simp only [List.get_eq_getElem, e3]

theorem apply_pair (a : F → F) (x y : F) : apply [x, y] a = .ok [x, a (a x)] := by
  simp [apply, applyLoop, AtVec, SetVec, bind, Except.bind]

end Basic

section Lemmas

variable {F : Type} [LinearOrderedField F]

theorem NewVecDense_pos (n : Int) (h : 0 < n) :
    (NewVecDense n : Except GoPanic (Vec F)) = .ok (List.replicate n.toNat 0) := by
  have h1 : ¬ n = 0 := by omega
  have h2 : ¬ n < 0 := by omega
  simp [NewVecDense, h1, h2]

theorem NewDense_nil_ok (r c : Int) (d : Dense F) (h : NewDense r c none = .ok d) :
    d = ⟨r.toNat, c.toNat, List.replicate (r * c).toNat 0⟩ := by
  unfold NewDense at h
  split at h
  · cases h
  · split at h
    · cases h
    · cases h; rfl

theorem NewDense_nil_pos (r c : Int) (hr : 0 < r) (hc : 0 < c) :
    (NewDense r c none : Except GoPanic (Dense F)) =
      .ok ⟨r.toNat, c.toNat, List.replicate (r * c).toNat 0⟩ := by
  have h1 : ¬ (r = 0 ∨ c = 0) := by omega
  have h2 : ¬ (r < 0 ∨ c < 0) := by omega
  simp [NewDense, h1, h2]

/-! ## Lemmas on `softmax` -/

theorem softmax_panics (mexp : Dense F → Dense F) (v : Vec F) :
    softmax mexp v = .error
      (if v.length = 0 then GoPanic.ErrZeroLength
       else if v.length = 1 then GoPanic.ErrVectorAccess else GoPanic.ErrShape) := by
  match v with
  | [] => simp [softmax, matMax, VecT, bind, Except.bind]
  | [x] =>
    have := apply_singleton (fun n => n - x) x
    simp [softmax, matMax, VecT, bind, Except.bind, this]
  | x :: y :: rest =>
    have hm : ∃ m, matMax (VecT (x :: y :: rest)) = .ok m := ⟨_, rfl⟩
    obtain ⟨m, hm⟩ := hm
    obtain ⟨v1, hv1, hlen⟩ := apply_ok (fun n => n - m) (x :: y :: rest) (by simp)
    have hne : ¬ (1 = v1.length) := by simp at hlen; omega
    simp only [softmax, hm, hv1, bind, Except.bind]
    simp [DenseExp, VecT, hne]

/-! ## Lemmas on `forward` -/

theorem forward_panics (tanh : F → F) (mexp : Dense F → Dense F) (n : RNN F)
    (inputs : List Int) (hprev : Vec F) :
    forward tanh mexp n inputs hprev = .error (.indexOutOfRange 0 0) := rfl

/-! ## Lemmas on `Train` -/

theorem trainBody_ok (n : RNN F) (reader : Nat → Window)
    (fwd : TrainState F → Except GoPanic (Trace F)) (s s1 : TrainState F)
    (h : trainBody n reader fwd s = .ok s1) :
    s1 = { smooth_loss := s.smooth_loss,
           hprev := if s.restart then List.replicate n.hiddenSize.toNat 0 else s.hprev,
           restart := (reader s.reads).2.2,
           inputs := (reader s.reads).1,
           targets := (reader s.reads).2.1,
           reads := s.reads + 1 } := by
  have hdef : trainBody n reader fwd s =
      (trainReset n s >>=
        fun hp =>
          fwd ⟨s.smooth_loss, hp, (reader s.reads).2.2, (reader s.reads).1,
                (reader s.reads).2.1, s.reads + 1⟩ >>=
          fun _ => pure ⟨s.smooth_loss, hp, (reader s.reads).2.2, (reader s.reads).1,
                (reader s.reads).2.1, s.reads + 1⟩) := rfl
  rw [hdef] at h
  cases hE : trainReset n s with
  | error e => rw [hE] at h; cases h
  | ok hp =>
    rw [hE] at h
    have hhp : hp = if s.restart then List.replicate n.hiddenSize.toNat 0 else s.hprev := by
      unfold trainReset at hE
      cases hr : s.restart
      · rw [hr] at hE; cases hE; rfl
      · rw [hr] at hE
        cases hd : (NewDense n.hiddenSize 1 none : Except GoPanic (Dense F)) with
        | error e => rw [hd] at hE; cases hE
        | ok d =>
          rw [hd] at hE
          have hd2 := NewDense_nil_ok _ _ d hd
          cases hE
          simp [hd2]
    cases hF : fwd ⟨s.smooth_loss, hp, (reader s.reads).2.2, (reader s.reads).1,
                (reader s.reads).2.1, s.reads + 1⟩ with
    | error e =>
      simp only [bind, Except.bind, hF] at h
      cases h
    | ok tr =>
      simp only [bind, Except.bind, hF, pure, Except.pure] at h
      cases h
      rw [hhp]

theorem trainIter_succ (n : RNN F) (reader : Nat → Window)
    (fwd : TrainState F → Except GoPanic (Trace F)) (k : Nat) (s s1 : TrainState F)
    (hg : threshold < s.smooth_loss) (hb : trainBody n reader fwd s = .ok s1) :
    trainIter n reader fwd (k + 1) s = trainIter n reader fwd k s1 := by
  simp only [trainIter, hg, if_true, hb, bind, Except.bind]

/-! ## Lemmas on `backward` -/

theorem backwardInit_pos (n : RNN F) (hh : 0 < n.hiddenSize) (hi : 0 < n.inputSize) :
    backwardInit n = .ok
      { grads := ⟨⟨n.hiddenSize.toNat, n.inputSize.toNat,
                    List.replicate (n.hiddenSize * n.inputSize).toNat 0⟩,
                  ⟨n.inputSize.toNat, n.hiddenSize.toNat,
                    List.replicate (n.inputSize * n.hiddenSize).toNat 0⟩,
                  ⟨n.hiddenSize.toNat, n.hiddenSize.toNat,
                    List.replicate (n.hiddenSize * n.hiddenSize).toNat 0⟩,
                  List.replicate n.hiddenSize.toNat 0, List.replicate n.inputSize.toNat 0,
                  List.replicate n.hiddenSize.toNat 0⟩,
        dy := none, vec1 := none } := by
  simp only [backwardInit, NewDense_nil_pos _ _ hh hi, NewDense_nil_pos _ _ hi hh,
    NewDense_nil_pos _ _ hh hh, NewVecDense_pos _ hh, NewVecDense_pos _ hi, bind, Except.bind,
    pure, Except.pure]

/-! ## More lemmas on `backward` -/

theorem backwardStep_nil_dy (hs : List (Option (Vec F))) (targets : List Int)
    (g : Grads F) (v1 : Option (Vec F)) (t : Int) :
    backwardStep hs targets ⟨g, none, v1⟩ t =
      match sliceGet hs t with
      | .error e => .error e
      | .ok _ => .error .nilDereference := by
  simp only [backwardStep, bind, Except.bind, CopyVec, deref]
  cases sliceGet hs t <;> rfl

theorem backwardIndices_nonneg (seqLength : Int) (h : 0 ≤ seqLength) :
    backwardIndices seqLength =
      seqLength :: (List.range seqLength.toNat).reverse.map fun k => (k : Int) := by
  obtain ⟨m, rfl⟩ := Int.eq_ofNat_of_zero_le h
  have e : ((m : Int) + 1).toNat = m + 1 := by omega
  simp [backwardIndices, e, List.range_succ]

theorem backward_nonneg (n : RNN F) (xs hs ps : List (Option (Vec F))) (targets : List Int)
    (hh : 0 < n.hiddenSize) (hi : 0 < n.inputSize) (hs0 : 0 ≤ n.seqLength) :
    backward n xs hs ps targets =
      match sliceGet hs n.seqLength with
      | .error e => .error e
      | .ok _ => .error .nilDereference := by
  simp only [backward, backwardInit_pos n hh hi, bind, Except.bind,
    backwardIndices_nonneg n.seqLength hs0, backwardLoop, backwardStep_nil_dy]
  cases sliceGet hs n.seqLength <;> rfl

theorem sliceGet_length {α : Type} (s : List α) (i : Int) (h : (s.length : Int) = i) :
    sliceGet s i = .error (.indexOutOfRange i s.length) := by
  have h0 : ¬ i < 0 := by omega
  have h1 : s.length ≤ i.toNat := by omega
  simp [sliceGet, h0, List.getElem?_eq_none h1]
/-! ## Lemmas on `New` -/

theorem fillLoop_ok (lo width : F) (rnd : Nat → F) (k0 : Nat) :
    ∀ (k i : Nat) (dst : List F), i + k ≤ dst.length →
      ∃ dst1, fillLoop lo width rnd k0 k i dst = .ok dst1 ∧ dst1.length = dst.length := by
  intro k
  induction k with
  | zero => intro i dst _; exact ⟨dst, rfl, rfl⟩
  | succ k ih =>
    intro i dst h
    have hi : i < dst.length := by omega
    obtain ⟨dst1, h1, hlen⟩ := ih (i + 1) (dst.set i (lo + rnd (k0 + i) * width))
      (by simp; omega)
    refine ⟨dst1, ?_, by simpa using hlen⟩
    simp only [fillLoop, sliceSet_natCast dst i _ hi, bind, Except.bind]
    exact h1

theorem fillLoop_overrun (lo width : F) (rnd : Nat → F) (k0 : Nat) :
    ∀ (k i : Nat) (dst : List F), i ≤ dst.length → dst.length < i + k →
      fillLoop lo width rnd k0 k i dst = .error (.indexOutOfRange dst.length dst.length) := by
  intro k
  induction k with
  | zero => intro i dst h1 h2; omega
  | succ k ih =>
    intro i dst h1 h2
    by_cases hi : i < dst.length
    · have := ih (i + 1) (dst.set i (lo + rnd (k0 + i) * width)) (by simp; omega)
        (by simp; omega)
      simp only [fillLoop, sliceSet_natCast dst i _ hi, bind, Except.bind]
      simpa using this
    · have he : i = dst.length := by omega
      subst he
      have hc : ¬ ((0 : Int) ≤ (dst.length : Int) ∧
          ((dst.length : Nat) : Int).toNat < dst.length) := by
        simp only [Int.toNat_ofNat]
        omega
      simp only [fillLoop, sliceSet, hc, if_false, bind, Except.bind]

theorem wrap64_small (x : Int) (h0 : 0 ≤ x) (h1 : x ≤ maxSliceLen) : wrap64 x = x := by
  unfold maxSliceLen at h1
  unfold wrap64
  omega

theorem allocCheck_ok (n : Int) (h0 : 0 ≤ n) (h1 : n ≤ maxSliceLen) : allocCheck n = .ok () := by
  have hc : ¬ (n < 0 ∨ maxSliceLen < n) := by omega
  simp only [allocCheck, hc, if_false]

theorem NewVecDenseChecked_ok (n : Int) (h0 : 0 < n) (h1 : n ≤ maxSliceLen) :
    (NewVecDenseChecked n : Except GoPanic (Vec F)) = .ok (List.replicate n.toNat 0) := by
  simp only [NewVecDenseChecked, h0, if_true, allocCheck_ok n (by omega) h1,
    NewVecDense_pos n h0, bind, Except.bind]

theorem makeSlice_ok (n : Int) (h0 : 0 ≤ n) (h1 : n ≤ maxSliceLen) :
    (makeSlice n : Except GoPanic (List F)) = .ok (List.replicate n.toNat 0) := by
  simp only [makeSlice, allocCheck_ok n h0 h1, bind, Except.bind, pure, Except.pure]

theorem NewDense_some (r c : Int) (d : List F) (hr : 0 < r) (hc : 0 < c) :
    NewDense r c (some d) =
      if wrap64 (r * c) ≠ (d.length : Int) then .error .ErrShape
      else .ok ⟨r.toNat, c.toNat, d⟩ := by
  have h1 : ¬ (r = 0 ∨ c = 0) := by omega
  have h2 : ¬ (r < 0 ∨ c < 0) := by omega
  simp only [NewDense, h1, h2, if_false]

theorem New_pos (sqrt : F → F) (rnd : Nat → F) (H I sl lr : Int) (hH : 0 < H) (hI : 0 < I)
    (hHI : H * I ≤ maxSliceLen) (hHH : H * H ≤ maxSliceLen) :
    ∃ uNums vNums : List F, uNums.length = (H * I).toNat ∧ vNums.length = (I * H).toNat ∧
      New sqrt rnd H I sl lr =
        (fillLoop (-(sqrt (1 / (H : F)))) (2 * sqrt (1 / (H : F))) rnd
            (uNums.length + vNums.length) vNums.length 0 (List.replicate (H * H).toNat 0) >>=
          fun _ => NewDense H H (some vNums) >>=
          fun w => pure ⟨H, I, sl, lr, ⟨H.toNat, I.toNat, uNums⟩, ⟨I.toNat, H.toNat, vNums⟩, w,
            List.replicate H.toNat 0, List.replicate I.toNat 0⟩) := by
  have pHI : 0 < H * I := Int.mul_pos hH hI
  have pIH : 0 < I * H := Int.mul_pos hI hH
  have pHH : 0 < H * H := Int.mul_pos hH hH
  have eIH : I * H = H * I := Int.mul_comm I H
  have hIH : I * H ≤ maxSliceLen := by omega
  have hHle : H ≤ maxSliceLen := by
    have : H * 1 ≤ H * I := Int.mul_le_mul_of_nonneg_left (by omega) (by omega)
    omega
  have hIle : I ≤ maxSliceLen := by
    have : 1 * I ≤ H * I := Int.mul_le_mul_of_nonneg_right (by omega) (by omega)
    omega
  have wHI : wrap64 (H * I) = H * I := wrap64_small _ (by omega) hHI
  have wIH : wrap64 (I * H) = I * H := wrap64_small _ (by omega) hIH
  have wHH : wrap64 (H * H) = H * H := wrap64_small _ (by omega) hHH
  obtain ⟨uNums, hu, hulen⟩ := fillLoop_ok (-(sqrt (1 / (I : F)))) (2 * sqrt (1 / (I : F))) rnd 0
    (List.replicate (H * I).toNat (0 : F)).length 0 (List.replicate (H * I).toNat 0)
    (by omega)
  obtain ⟨vNums, hv, hvlen⟩ := fillLoop_ok (-(sqrt (1 / (H : F)))) (2 * sqrt (1 / (H : F))) rnd
    uNums.length
    (List.replicate (I * H).toNat (0 : F)).length 0 (List.replicate (I * H).toNat 0)
    (by omega)
  rw [List.length_replicate] at hulen hvlen
  have hdu : NewDense H I (some uNums) = .ok ⟨H.toNat, I.toNat, uNums⟩ := by
    have : ¬ (wrap64 (H * I) ≠ (uNums.length : Int)) := by rw [wHI, hulen]; omega
    rw [NewDense_some H I uNums hH hI, if_neg this]
  have hdv : NewDense I H (some vNums) = .ok ⟨I.toNat, H.toNat, vNums⟩ := by
    have : ¬ (wrap64 (I * H) ≠ (vNums.length : Int)) := by rw [wIH, hvlen]; omega
    rw [NewDense_some I H vNums hI hH, if_neg this]
  refine ⟨uNums, vNums, hulen, hvlen, ?_⟩
  simp only [New, wHI, wIH, wHH, makeSlice_ok (H * I) (by omega) hHI,
    makeSlice_ok (I * H) (by omega) hIH, makeSlice_ok (H * H) (by omega) hHH, hu, hv, hdu, hdv,
    NewVecDenseChecked_ok H hH hHle, NewVecDenseChecked_ok I hI hIle, bind, Except.bind, pure,
    Except.pure]

/-! ## More lemmas on `Train` -/

theorem trainInit_pos (log : F → F) (n : RNN F) (hh : 0 < n.hiddenSize) :
    trainInit log n = .ok ⟨-log (1 / (n.inputSize : F)), List.replicate n.hiddenSize.toNat 0,
      false, [], [], 0⟩ := by
  simp only [trainInit, NewVecDense_pos n.hiddenSize hh, bind, Except.bind, pure, Except.pure]

theorem trainBody_smooth_loss (n : RNN F) (reader : Nat → Window)
    (fwd : TrainState F → Except GoPanic (Trace F)) (s s1 : TrainState F)
    (h : trainBody n reader fwd s = .ok s1) : s1.smooth_loss = s.smooth_loss := by
  rw [trainBody_ok n reader fwd s s1 h]

theorem trainIter_smooth_loss (n : RNN F) (reader : Nat → Window)
    (fwd : TrainState F → Except GoPanic (Trace F)) :
    ∀ (k : Nat) (s s1 : TrainState F),
      trainIter n reader fwd k s = .ok (some s1) → s1.smooth_loss = s.smooth_loss := by
  intro k
  induction k with
  | zero =>
    intro s s1 h
    simp only [trainIter] at h
    cases h; rfl
  | succ k ih =>
    intro s s1 h
    simp only [trainIter] at h
    split at h
    · simp only [bind, Except.bind] at h
      cases hb : trainBody n reader fwd s with
      | error e => simp [hb] at h
      | ok s2 =>
        simp only [hb] at h
        rw [ih s2 s1 h, trainBody_smooth_loss n reader fwd s s2 hb]
    · cases h

theorem trainLoop_exit (n : RNN F) (reader : Nat → Window)
    (fwd : TrainState F → Except GoPanic (Trace F)) (fuel : Nat) (s : TrainState F)
    (h : s.smooth_loss ≤ threshold) : trainLoop n reader fwd (fuel + 1) s = .ok (some s) := by
  have hg : ¬ threshold < s.smooth_loss := not_lt.mpr h
  simp only [trainLoop, hg, if_false]

theorem trainLoop_pass (n : RNN F) (reader : Nat → Window)
    (fwd : TrainState F → Except GoPanic (Trace F)) (fuel : Nat) (s : TrainState F)
    (h : threshold < s.smooth_loss) :
    trainLoop n reader fwd (fuel + 1) s =
      (trainBody n reader fwd s >>= trainLoop n reader fwd fuel) := by
  simp only [trainLoop, h, if_true]

theorem trainLoop_never_exits (n : RNN F) (reader : Nat → Window)
    (fwd : TrainState F → Except GoPanic (Trace F)) :
    ∀ (fuel : Nat) (s s1 : TrainState F), threshold < s.smooth_loss →
      trainLoop n reader fwd fuel s ≠ .ok (some s1) := by
  intro fuel
  induction fuel with
  | zero => intro s s1 _ h; simp only [trainLoop] at h; cases h
  | succ fuel ih =>
    intro s s1 hg h
    rw [trainLoop_pass n reader fwd fuel s hg] at h
    cases hb : trainBody n reader fwd s with
    | error e => simp [hb, bind, Except.bind] at h
    | ok s2 =>
      simp only [hb, bind, Except.bind] at h
      have h2 := trainBody_smooth_loss n reader fwd s s2 hb
      exact ih s2 s1 (by rw [h2]; exact hg) h

theorem trainBody_succeeds (n : RNN F) (reader : Nat → Window)
    (fwd : TrainState F → Except GoPanic (Trace F)) (hh : 0 < n.hiddenSize)
    (hf : ∀ s, ∃ tr, fwd s = .ok tr) (s : TrainState F) :
    ∃ s1, trainBody n reader fwd s = .ok s1 := by
  have hr : ∃ hp, trainReset n s = .ok hp := by
    unfold trainReset
    cases s.restart
    · exact ⟨_, rfl⟩
    · rw [NewDense_nil_pos n.hiddenSize 1 hh (by decide)]
      exact ⟨_, rfl⟩
  obtain ⟨hp, hr⟩ := hr
  obtain ⟨tr, htr⟩ := hf ⟨s.smooth_loss, hp, (reader s.reads).2.2, (reader s.reads).1,
    (reader s.reads).2.1, s.reads + 1⟩
  refine ⟨⟨s.smooth_loss, hp, (reader s.reads).2.2, (reader s.reads).1,
    (reader s.reads).2.1, s.reads + 1⟩, ?_⟩
  simp only [trainBody, hr, htr, bind, Except.bind, pure, Except.pure]

theorem trainLoop_keeps_running (n : RNN F) (reader : Nat → Window)
    (fwd : TrainState F → Except GoPanic (Trace F)) (hh : 0 < n.hiddenSize)
    (hf : ∀ s, ∃ tr, fwd s = .ok tr) :
    ∀ (fuel : Nat) (s : TrainState F), threshold < s.smooth_loss →
      trainLoop n reader fwd fuel s = .ok none := by
  intro fuel
  induction fuel with
  | zero => intro s _; rfl
  | succ fuel ih =>
    intro s hg
    obtain ⟨s1, hb⟩ := trainBody_succeeds n reader fwd hh hf s
    rw [trainLoop_pass n reader fwd fuel s hg, hb]
    have h2 := trainBody_smooth_loss n reader fwd s s1 hb
    exact ih s1 (by rw [h2]; exact hg)

/-! ## Lemmas on the forward call of `Train` -/

theorem trainBody_eq_call (n : RNN F) (reader : Nat → Window)
    (fwd : TrainState F → Except GoPanic (Trace F)) (s : TrainState F) :
    trainBody n reader fwd s =
      (trainCall n reader s >>= fun s1 => fwd s1 >>= fun _ => pure s1) := by
  simp only [trainBody, trainCall, bind, Except.bind, pure, Except.pure]
  cases trainReset n s <;> rfl

theorem trainCall_pos (n : RNN F) (reader : Nat → Window) (s : TrainState F)
    (hh : 0 < n.hiddenSize) :
    trainCall n reader s = .ok ⟨s.smooth_loss,
      if s.restart then List.replicate n.hiddenSize.toNat 0 else s.hprev,
      (reader s.reads).2.2, (reader s.reads).1, (reader s.reads).2.1, s.reads + 1⟩ := by
  have hr : trainReset n s =
      .ok (if s.restart then List.replicate n.hiddenSize.toNat 0 else s.hprev) := by
    unfold trainReset
    cases s.restart
    · rfl
    · rw [NewDense_nil_pos n.hiddenSize 1 hh (by decide)]
      simp [Except.map]
  simp only [trainCall, hr, bind, Except.bind, pure, Except.pure]

theorem trainBody_forward (tanh : F → F) (mexp : Dense F → Dense F) (n : RNN F)
    (reader : Nat → Window) (s : TrainState F) :
    trainBody n reader (trainFwd tanh mexp n) s =
      match trainCall n reader s with
      | .error e => .error e
      | .ok _ => .error (.indexOutOfRange 0 0) := by
  rw [trainBody_eq_call]
  cases trainCall n reader s with
  | error e => rfl
  | ok s1 =>
    simp only [bind, Except.bind, trainFwd, forward_panics]

theorem trainCalls_first_panics (n : RNN F) (reader : Nat → Window)
    (fwd : TrainState F → Except GoPanic (Trace F)) (fuel : Nat) (s s1 : TrainState F)
    (e : GoPanic) (hg : threshold < s.smooth_loss) (hc : trainCall n reader s = .ok s1)
    (hf : fwd s1 = .error e) : trainCalls n reader fwd (fuel + 1) s = [s1] := by
  simp only [trainCalls, hg, if_true, hc, hf]

theorem threshold_lt_neg_log_real (x : ℝ) (h0 : 0 < x) (h : x ≤ 1 / 2) :
    (threshold : ℝ) < -Real.log x := by
  have h1 : Real.log x ≤ Real.log (1 / 2) := Real.log_le_log h0 h
  have h2 : Real.log (1 / 2) = -Real.log 2 := by rw [one_div, Real.log_inv]
  have h3 := Real.log_two_gt_d9
  have ht : (threshold : ℝ) = 1 / 100 := rfl
  rw [h2] at h1
  rw [ht]
  norm_num at h3 ⊢
  linarith

end Lemmas

/-! ## The claims -/

section Claims

variable {F : Type} [LinearOrderedField F]

/-- Claim C1, on the code: `softmax` returns for no vector. It panics with
`ErrZeroLength` on the empty vector (`mat.Max`), with `ErrVectorAccess` on a
vector of length one (`SetVec(1, _)` in `apply`) and with `ErrShape` on every
longer one (`Exp` of the `1 × N` transpose), so no call yields a distribution
that sums to one with entries strictly between zero and one. -/
theorem softmax_never_returns (mexp : Dense F → Dense F) (v : Vec F) :
    softmax mexp v = .error
        (if v.length = 0 then GoPanic.ErrZeroLength
         else if v.length = 1 then GoPanic.ErrVectorAccess else GoPanic.ErrShape) ∧
      ¬ ∃ p, softmax mexp v = .ok p ∧ p.sum = 1 ∧ ∀ x ∈ p, 0 < x ∧ x < 1 := by
  refine ⟨softmax_panics mexp v, ?_⟩
  rintro ⟨p, hp, -⟩
  rw [softmax_panics] at hp
  cases hp

/-- Claim C2, on the code: neither `softmax` of `v` nor `softmax` of `v` with
`k` added to every entry returns a result, so there are no two results to
compare. -/
theorem softmax_shift_never_returns (mexp : Dense F → Dense F) (v : Vec F) (k : F) :
    (∀ p, softmax mexp v ≠ .ok p) ∧ (∀ p, softmax mexp (v.map (· + k)) ≠ .ok p) := by
  constructor <;> intro p hp <;> rw [softmax_panics] at hp <;> cases hp

/-- Claim C3, on the code: for every network, window and hidden state,
`forward` panics at its first statement, `hs[0].CopyVec(hprev)`, because the
named result `hs` is a nil slice; it returns no sequences of length `T`. -/
theorem forward_never_returns (tanh : F → F) (mexp : Dense F → Dense F) (n : RNN F)
    (inputs : List Int) (hprev : Vec F) :
    forward tanh mexp n inputs hprev = .error (.indexOutOfRange 0 0) ∧
      ¬ ∃ tr, forward tanh mexp n inputs hprev = .ok tr ∧ tr.xs.length = inputs.length ∧
        tr.hs.length = inputs.length ∧ tr.ycap.length = inputs.length := by
  refine ⟨forward_panics tanh mexp n inputs hprev, ?_⟩
  rintro ⟨tr, htr, -⟩
  rw [forward_panics] at htr
  cases htr

/-- Claim C4, on the code: for windows `A` and `B` and a hidden state `h0`,
the run on `A`, every run on `B` and the run on `A ++ B` all panic, so there
is no hidden-state sequence of `B` to compare with a tail of the one of
`A ++ B`. -/
theorem forward_carryover_never_returns (tanh : F → F) (mexp : Dense F → Dense F)
    (n : RNN F) (A B : List Int) (h0 : Vec F) :
    forward tanh mexp n A h0 = .error (.indexOutOfRange 0 0) ∧
      (∀ h : Vec F, forward tanh mexp n B h = .error (.indexOutOfRange 0 0)) ∧
      forward tanh mexp n (A ++ B) h0 = .error (.indexOutOfRange 0 0) :=
  ⟨forward_panics tanh mexp n A h0, fun h => forward_panics tanh mexp n B h,
    forward_panics tanh mexp n (A ++ B) h0⟩

/-- Claim C6, on the code: `New` panics for the positive sizes
`hiddenSize = 2`, `inputSize = 3` (the loop that fills `wNums` ranges over
`vNums` and writes `wNums[4]`, past its four entries) and for `hiddenSize = 3`,
`inputSize = 2` (`w` is built over `vNums`, of length 6 instead of 9),
whatever the random draws. -/
theorem New_panics_on_unequal_sizes (sqrt : F → F) (rnd : Nat → F)
    (seqLength learningRate : Int) :
    New sqrt rnd 2 3 seqLength learningRate = .error (.indexOutOfRange 4 4) ∧
      New sqrt rnd 3 2 seqLength learningRate = .error .ErrShape := by
  constructor <;>
    simp [New, makeSlice, allocCheck, maxSliceLen, wrap64, fillLoop, sliceSet, NewDense,
      NewVecDenseChecked, bind, Except.bind, pure, Except.pure]

/-- Claim C10, on the code: `forward` panics at its first statement for every
window, so no hidden state is produced; and `apply`, with which the loop body
would take `tanh`, does not map `tanh` over its vector: on three entries it
leaves entries 0 and 2 as they are and stores `tanh` of entry 2 in entry 1. -/
theorem forward_hidden_recurrence_never_computed (tanh : F → F) (mexp : Dense F → Dense F)
    (n : RNN F) (inputs : List Int) (hprev : Vec F) :
    forward tanh mexp n inputs hprev = .error (.indexOutOfRange 0 0) ∧
      ∀ x0 x1 x2 : F, apply [x0, x1, x2] tanh = .ok [x0, tanh x2, x2] := by
  refine ⟨forward_panics tanh mexp n inputs hprev, ?_⟩
  intro x0 x1 x2
  simp [apply, applyLoop, AtVec, SetVec, bind, Except.bind]

/-- Claim C11, on the code: `forward` panics at its first statement for every
window, so it produces no distribution; and its loop body never reads the
output bias: with any other vector in place of `n.c` an iteration does the
same, the logits being `V·h[t]` alone, whereas the hidden bias `n.b` is
added. -/
theorem forward_ignores_output_bias (tanh : F → F) (mexp : Dense F → Dense F)
    (n : RNN F) (inputs : List Int) (hprev : Vec F) :
    forward tanh mexp n inputs hprev = .error (.indexOutOfRange 0 0) ∧
      ∀ (c1 : Vec F) (st : FwdState F) (t : Nat) (input : Int),
        forwardStep tanh mexp { n with c := c1 } st t input =
          forwardStep tanh mexp n st t input :=
  ⟨forward_panics tanh mexp n inputs hprev, fun _ _ _ _ => rfl⟩

/-- Claim C12, on the code: in the state `backward` reaches its loop with,
`dy` is a nil pointer and the first statement of the body,
`dy.CopyVec(hs[t])`, panics at every `t`, so no `dy` is computed; and where
`dy` and `vec1` point to vectors, the body fills `dy` from the hidden state
`hs[t]`, not from the distribution `ps[t]`, which it never reads. -/
theorem backward_seed_never_computed (hs : List (Option (Vec F))) (targets : List Int)
    (g : Grads F) (t : Int) :
    (backwardStep hs targets ⟨g, none, none⟩ t =
      match sliceGet hs t with
      | .error e => .error e
      | .ok _ => .error .nilDereference) ∧
      ∀ (h0 h1 d0 d1 : F) (v1 : Vec F),
        backwardStep [some [h0, h1]] [1] ⟨g, some [d0, d1], some v1⟩ 0 =
          .ok ⟨g, some [h0, h1 - 1], some v1⟩ := by
  refine ⟨backwardStep_nil_dy hs targets g none t, ?_⟩
  intro h0 h1 d0 d1 v1
  simp [backwardStep, sliceGet, CopyVec, deref, AtVec, SetVec, bind, Except.bind, pure,
    Except.pure]

/-- Claim C13, on the code: for a network with positive sizes and a trace of
length `T = seqLength`, the loop of `backward` starts at `t = seqLength`, not
at `T - 1`, and its first access `hs[seqLength]` panics with an index out of
range. -/
theorem backward_starts_past_the_end (n : RNN F) (xs hs ps : List (Option (Vec F)))
    (targets : List Int) (hh : 0 < n.hiddenSize) (hi : 0 < n.inputSize)
    (hT : (hs.length : Int) = n.seqLength) :
    (backwardIndices n.seqLength).head? = some n.seqLength ∧
      backward n xs hs ps targets = .error (.indexOutOfRange n.seqLength hs.length) := by
  have hs0 : 0 ≤ n.seqLength := by omega
  refine ⟨by rw [backwardIndices_nonneg _ hs0]; rfl, ?_⟩
  rw [backward_nonneg n xs hs ps targets hh hi hs0, sliceGet_length hs _ hT]

/-- Witness of `backward_starts_past_the_end`: `exRNN` has `seqLength = 1`;
on a trace of length one `backward` visits `t = 1` first and panics. -/
theorem backward_starts_past_the_end_witness :
    ((0 : Int) < exRNN.hiddenSize ∧ (0 : Int) < exRNN.inputSize ∧
      (([some [1/2, 1/2]] : List (Option (Vec ℚ))).length : Int) = exRNN.seqLength) ∧
    (backwardIndices exRNN.seqLength).head? = some exRNN.seqLength ∧
    backward exRNN [some [1, 0]] [some [1/2, 1/2]] [some [1/2, 1/2]] [1] =
      .error (.indexOutOfRange exRNN.seqLength
        ([some [1/2, 1/2]] : List (Option (Vec ℚ))).length) :=
  ⟨⟨by decide, by decide, by decide⟩,
    backward_starts_past_the_end exRNN [some [1, 0]] [some [1/2, 1/2]] [some [1/2, 1/2]] [1]
      (by decide) (by decide) (by decide)⟩

/-- Claim C17: the smoothed loss keeps its initial value through every pass
of the loop of `Train`, so the guard `smooth_loss > 0.01` has on every pass
the truth value it has on entry. With one token (and `log 1 = 0`) `Train`
returns at once, in its initial state, the data source never called. With two
tokens or more (and `log x < -0.01` for `0 < x <= 1/2`) no run of `Train`
ends with the guard false, and when the forward pass does not panic the loop
is still running after any number of passes. The network has a positive
`hiddenSize`, as every network `New` returns. -/
theorem train_guard_never_changes (log : F → F) (n : RNN F) (reader : Nat → Window)
    (fwd : TrainState F → Except GoPanic (Trace F)) (hh : 0 < n.hiddenSize) :
    (∀ (k : Nat) (s0 s : TrainState F), trainInit log n = .ok s0 →
        trainIter n reader fwd k s0 = .ok (some s) →
        s.smooth_loss = s0.smooth_loss ∧
          (threshold < s.smooth_loss ↔ threshold < s0.smooth_loss)) ∧
      (n.inputSize = 1 → log 1 = 0 →
        ∃ s0, trainInit log n = .ok s0 ∧ s0.reads = 0 ∧ s0.smooth_loss = 0 ∧
          ∀ fuel : Nat, Train log n reader fwd (fuel + 1) = .ok (some s0)) ∧
      (2 ≤ n.inputSize → (∀ x : F, 0 < x → x ≤ 1 / 2 → log x < -(1 / 100)) →
        (∀ (fuel : Nat) (s : TrainState F), Train log n reader fwd fuel ≠ .ok (some s)) ∧
          ((∀ s, ∃ tr, fwd s = .ok tr) →
            ∀ fuel : Nat, Train log n reader fwd fuel = .ok none)) := by
  refine ⟨?_, ?_, ?_⟩
  · intro k s0 s _ h
    have := trainIter_smooth_loss n reader fwd k s0 s h
    exact ⟨this, by rw [this]⟩
  · intro h1 hlog
    have hs : -log (1 / (n.inputSize : F)) = 0 := by
      rw [h1]
      simp [hlog]
    refine ⟨_, trainInit_pos log n hh, rfl, hs, ?_⟩
    intro fuel
    simp only [Train, trainInit_pos log n hh, bind, Except.bind]
    exact trainLoop_exit n reader fwd fuel _ (by
      show -log (1 / (n.inputSize : F)) ≤ threshold
      rw [hs]
      norm_num [threshold])
  · intro h2 hlog
    have hpos : (0 : F) < (n.inputSize : F) := by
      have : (0 : Int) < n.inputSize := by omega
      exact_mod_cast this
    have hle : 1 / (n.inputSize : F) ≤ 1 / 2 := by
      have h2F : (2 : F) ≤ (n.inputSize : F) := by exact_mod_cast h2
      exact one_div_le_one_div_of_le (by norm_num) h2F
    have hg : (threshold : F) < -log (1 / (n.inputSize : F)) := by
      have := hlog (1 / (n.inputSize : F)) (by positivity) hle
      have ht : (threshold : F) = 1 / 100 := rfl
      rw [ht]
      linarith
    refine ⟨?_, ?_⟩
    · intro fuel s h
      simp only [Train, trainInit_pos log n hh, bind, Except.bind] at h
      exact trainLoop_never_exits n reader fwd fuel _ s hg h
    · intro hf fuel
      simp only [Train, trainInit_pos log n hh, bind, Except.bind]
      exact trainLoop_keeps_running n reader fwd hh hf fuel _ hg

/-- Witness of `train_guard_never_changes` over the reals, with the real
logarithm for `math.Log`: it satisfies both assumptions on `log`; the
one-token network `exRNNRealOne` returns at once, and the two-token network
`exRNNRealTwo` keeps its smoothed loss through a pass and never leaves the
loop. -/
theorem train_guard_never_changes_witness :
    (((0 : Int) < exRNNRealOne.hiddenSize ∧ exRNNRealOne.inputSize = 1 ∧ Real.log 1 = 0) ∧
      ∃ s0, trainInit Real.log exRNNRealOne = .ok s0 ∧ s0.reads = 0 ∧ s0.smooth_loss = 0 ∧
        ∀ fuel : Nat, Train Real.log exRNNRealOne exReader exFwdReal (fuel + 1) = .ok (some s0)) ∧
    (((0 : Int) < exRNNRealTwo.hiddenSize ∧ (2 : Int) ≤ exRNNRealTwo.inputSize ∧
        (∀ x : ℝ, 0 < x → x ≤ 1 / 2 → Real.log x < -(1 / 100)) ∧
        ∀ s, ∃ tr, exFwdReal s = .ok tr) ∧
      (∀ (fuel : Nat) (s : TrainState ℝ),
        Train Real.log exRNNRealTwo exReader exFwdReal fuel ≠ .ok (some s)) ∧
      ∀ fuel : Nat, Train Real.log exRNNRealTwo exReader exFwdReal fuel = .ok none) ∧
    (trainInit Real.log exRNNRealTwo
        = .ok ⟨-Real.log (1 / ((2 : Int) : ℝ)), [0, 0], false, [], [], 0⟩ ∧
      trainIter exRNNRealTwo exReader exFwdReal 1
          ⟨-Real.log (1 / ((2 : Int) : ℝ)), [0, 0], false, [], [], 0⟩
        = .ok (some ⟨-Real.log (1 / ((2 : Int) : ℝ)), [0, 0], true, [0], [1], 1⟩) ∧
      (threshold < -Real.log (1 / ((2 : Int) : ℝ)) ↔
        threshold < -Real.log (1 / ((2 : Int) : ℝ)))) := by
  have hlog : ∀ x : ℝ, 0 < x → x ≤ 1 / 2 → Real.log x < -(1 / 100) := by
    intro x h0 h
    have h1 : Real.log x ≤ Real.log (1 / 2) := Real.log_le_log h0 h
    have h2 : Real.log (1 / 2) = -Real.log 2 := by rw [one_div, Real.log_inv]
    have h3 := Real.log_two_gt_d9
    rw [h2] at h1
    norm_num at h3 ⊢
    linarith
  have hf : ∀ s, ∃ tr, exFwdReal s = .ok tr := fun _ => ⟨_, rfl⟩
  have hi : trainInit Real.log exRNNRealTwo
      = .ok ⟨-Real.log (1 / ((2 : Int) : ℝ)), [0, 0], false, [], [], 0⟩ :=
    trainInit_pos Real.log exRNNRealTwo (by decide)
  have hg : (threshold : ℝ) < -Real.log (1 / ((2 : Int) : ℝ)) := by
    have := hlog (1 / ((2 : Int) : ℝ)) (by norm_num) (by norm_num)
    have ht : (threshold : ℝ) = 1 / 100 := rfl
    rw [ht]
    linarith
  have hk : trainIter exRNNRealTwo exReader exFwdReal 1
      ⟨-Real.log (1 / ((2 : Int) : ℝ)), [0, 0], false, [], [], 0⟩
        = .ok (some ⟨-Real.log (1 / ((2 : Int) : ℝ)), [0, 0], true, [0], [1], 1⟩) := by
    rw [trainIter_succ exRNNRealTwo exReader exFwdReal 0
      ⟨-Real.log (1 / ((2 : Int) : ℝ)), [0, 0], false, [], [], 0⟩
      ⟨-Real.log (1 / ((2 : Int) : ℝ)), [0, 0], true, [0], [1], 1⟩ hg rfl]
    rfl
  refine ⟨⟨⟨by decide, rfl, Real.log_one⟩,
      (train_guard_never_changes Real.log exRNNRealOne exReader exFwdReal (by decide)).2.1
        rfl Real.log_one⟩,
    ⟨⟨by decide, by decide, hlog, hf⟩,
      ((train_guard_never_changes Real.log exRNNRealTwo exReader exFwdReal (by decide)).2.2
        (by decide) hlog).1,
      ((train_guard_never_changes Real.log exRNNRealTwo exReader exFwdReal (by decide)).2.2
        (by decide) hlog).2 hf⟩,
    ⟨hi, hk,
      ((train_guard_never_changes Real.log exRNNRealTwo exReader exFwdReal (by decide)).1 1 _ _
        hi hk).2⟩⟩

/-- Claim C7, on the code: `forward` panics on every window, whatever its
tokens, with the index out of range of the nil slice `hs`, raised before any
token is read: windows whose tokens are all in range fail like the others.
The loop itself, in any state in which `xs` is the nil slice it is throughout
`forward`, panics at the store `xs[t] = ..` of the one-hot encoding for every
token, in range or not. -/
theorem forward_fails_whatever_the_tokens (tanh : F → F) (mexp : Dense F → Dense F)
    (n : RNN F) (inputs : List Int) (hprev : Vec F) :
    forward tanh mexp n inputs hprev = .error (.indexOutOfRange 0 0) ∧
      ∀ (st : FwdState F) (input : Int) (rest : List Int) (t : Nat), st.xs = [] →
        forwardLoop tanh mexp n (input :: rest) t st = .error
          (if n.inputSize = 0 then GoPanic.ErrZeroLength
           else if n.inputSize < 0 then GoPanic.ErrNegativeDimension
           else GoPanic.indexOutOfRange t 0) := by
  refine ⟨forward_panics tanh mexp n inputs hprev, ?_⟩
  intro st input rest t hxs
  by_cases h1 : n.inputSize = 0
  · simp [forwardLoop, forwardStep, encodeStep, NewVecDense, h1, bind, Except.bind]
  · by_cases h2 : n.inputSize < 0
    · simp [forwardLoop, forwardStep, encodeStep, NewVecDense, h1, h2, bind, Except.bind]
    · simp [forwardLoop, forwardStep, encodeStep, NewVecDense, sliceSet, hxs, h1, h2, bind,
        Except.bind]

/-- Witness of `forward_fails_whatever_the_tokens` on `exRNN` (two tokens):
the window `[0, 1]`, all in range, fails, and the loop on the nil `xs` fails
at its first store for the in-range token 0. -/
theorem forward_fails_whatever_the_tokens_witness :
    forward id id exRNN [0, 1] [0, 0] = .error (.indexOutOfRange 0 0) ∧
      (fwdInit : FwdState ℚ).xs = [] ∧
      forwardLoop id id exRNN [0, 1] 0 fwdInit = .error (.indexOutOfRange 0 0) :=
  ⟨(forward_fails_whatever_the_tokens id id exRNN [0, 1] [0, 0]).1, rfl,
    (forward_fails_whatever_the_tokens id id exRNN [0, 1] [0, 0]).2 fwdInit 0 [1] 0 rfl⟩

/-- Claim C8, on the code: with the forward pass of the package no pass of the
loop of `Train` completes: the body panics in the reset or, once the window
is read, in `forward`, so no number of iterations is ever completed and
`hprev` is never the last hidden state of a trace. And whatever the forward
pass returns, the state after the body is the state in which the forward pass
was called: no statement stores a hidden state of the trace in `hprev`. -/
theorem train_pass_never_completes (tanh : F → F) (mexp : Dense F → Dense F) (n : RNN F)
    (reader : Nat → Window) (s : TrainState F) :
    (trainBody n reader (trainFwd tanh mexp n) s =
        match trainCall n reader s with
        | .error e => .error e
        | .ok _ => .error (.indexOutOfRange 0 0)) ∧
      (∀ (k : Nat) (s1 : TrainState F),
        trainIter n reader (trainFwd tanh mexp n) (k + 1) s ≠ .ok (some s1)) ∧
      ∀ fwd : TrainState F → Except GoPanic (Trace F),
        trainBody n reader fwd s =
          (trainCall n reader s >>= fun s1 => fwd s1 >>= fun _ => pure s1) := by
  refine ⟨trainBody_forward tanh mexp n reader s, ?_,
    fun fwd => trainBody_eq_call n reader fwd s⟩
  intro k s1 h
  simp only [trainIter] at h
  split at h
  · rw [trainBody_forward] at h
    cases hc : trainCall n reader s with
    | error e => simp [hc, bind, Except.bind] at h
    | ok s2 => simp [hc, bind, Except.bind] at h
  · cases h

/-- Claim C9, on the code: for a network with positive sizes and
`seqLength >= 0`, `backward` panics for every trace and every target
sequence, at `hs[seqLength]` when the trace has no such entry and at the nil
pointer `dy` otherwise; it produces no gradient accumulators, clipped or
not. -/
theorem backward_produces_no_gradients (n : RNN F) (xs hs ps : List (Option (Vec F)))
    (targets : List Int) (hh : 0 < n.hiddenSize) (hi : 0 < n.inputSize)
    (hs0 : 0 ≤ n.seqLength) :
    (backward n xs hs ps targets =
        match sliceGet hs n.seqLength with
        | .error e => .error e
        | .ok _ => .error .nilDereference) ∧
      ¬ ∃ st, backward n xs hs ps targets = .ok st ∧
        ∀ e ∈ st.grads.entries, -5 ≤ e ∧ e ≤ 5 := by
  have hb := backward_nonneg n xs hs ps targets hh hi hs0
  refine ⟨hb, ?_⟩
  rintro ⟨st, hst, -⟩
  rw [hb] at hst
  cases hg : sliceGet hs n.seqLength with
  | error e => simp [hg] at hst
  | ok v => simp [hg] at hst

/-- Witness of `backward_produces_no_gradients` on `exRNN` (`seqLength = 1`)
with a trace and targets of length two. -/
theorem backward_produces_no_gradients_witness :
    ((0 : Int) < exRNN.hiddenSize ∧ (0 : Int) < exRNN.inputSize ∧ (0 : Int) ≤ exRNN.seqLength) ∧
    backward exRNN [some [1, 0], some [0, 1]] [some [1/2, 1/2], some [1/4, 1/4]]
        [some [1/2, 1/2], some [1/2, 1/2]] [1, 0] = .error .nilDereference ∧
    ¬ ∃ st, backward exRNN [some [1, 0], some [0, 1]] [some [1/2, 1/2], some [1/4, 1/4]]
        [some [1/2, 1/2], some [1/2, 1/2]] [1, 0] = .ok st ∧
        ∀ e ∈ st.grads.entries, -5 ≤ e ∧ e ≤ 5 :=
  ⟨⟨by decide, by decide, by decide⟩,
    (backward_produces_no_gradients exRNN [some [1, 0], some [0, 1]]
      [some [1/2, 1/2], some [1/4, 1/4]] [some [1/2, 1/2], some [1/2, 1/2]] [1, 0]
      (by decide) (by decide) (by decide)).1,
    (backward_produces_no_gradients exRNN [some [1, 0], some [0, 1]]
      [some [1/2, 1/2], some [1/4, 1/4]] [some [1/2, 1/2], some [1/2, 1/2]] [1, 0]
      (by decide) (by decide) (by decide)).2⟩

/-- Claim C14, on the code: for a network with a positive `hiddenSize` and two
tokens or more (and `log x < -0.01` for `0 < x <= 1/2`), `Train` with the
forward pass of the package starts with `smooth_loss = -log(1/inputSize)`,
enters its loop, reads one window and panics in `forward`: no window
completes and the smoothed loss is never updated. -/
theorem train_panics_in_first_window (log tanh : F → F) (mexp : Dense F → Dense F)
    (n : RNN F) (reader : Nat → Window) (hh : 0 < n.hiddenSize) (h2 : 2 ≤ n.inputSize)
    (hlog : ∀ x : F, 0 < x → x ≤ 1 / 2 → log x < -(1 / 100)) :
    ∃ s0, trainInit log n = .ok s0 ∧ s0.smooth_loss = -log (1 / (n.inputSize : F)) ∧
      ∀ fuel : Nat,
        Train log n reader (trainFwd tanh mexp n) (fuel + 1) = .error (.indexOutOfRange 0 0) ∧
        trainCalls n reader (trainFwd tanh mexp n) (fuel + 1) s0 =
          [⟨s0.smooth_loss, s0.hprev, (reader 0).2.2, (reader 0).1, (reader 0).2.1, 1⟩] := by
  have hle : 1 / (n.inputSize : F) ≤ 1 / 2 := by
    have h2F : (2 : F) ≤ (n.inputSize : F) := by exact_mod_cast h2
    exact one_div_le_one_div_of_le (by norm_num) h2F
  have hpos : (0 : F) < 1 / (n.inputSize : F) := by
    have : (0 : Int) < n.inputSize := by omega
    have : (0 : F) < (n.inputSize : F) := by exact_mod_cast this
    positivity
  have hg : (threshold : F) < -log (1 / (n.inputSize : F)) := by
    have := hlog (1 / (n.inputSize : F)) hpos hle
    have ht : (threshold : F) = 1 / 100 := rfl
    rw [ht]
    linarith
  refine ⟨_, trainInit_pos log n hh, rfl, ?_⟩
  intro fuel
  have hc := trainCall_pos n reader
    ⟨-log (1 / (n.inputSize : F)), List.replicate n.hiddenSize.toNat 0, false, [], [], 0⟩ hh
  refine ⟨?_, ?_⟩
  · simp only [Train, trainInit_pos log n hh, bind, Except.bind]
    rw [trainLoop_pass n reader _ fuel _ hg, trainBody_forward, hc]
    rfl
  · exact trainCalls_first_panics n reader _ fuel _ _ (.indexOutOfRange 0 0) hg hc
      (forward_panics tanh mexp n _ _)

/-- Witness of `train_panics_in_first_window` over the reals, with the real
logarithm, on `exRNNRealTwo`. -/
theorem train_panics_in_first_window_witness :
    ((0 : Int) < exRNNRealTwo.hiddenSize ∧ (2 : Int) ≤ exRNNRealTwo.inputSize ∧
      ∀ x : ℝ, 0 < x → x ≤ 1 / 2 → Real.log x < -(1 / 100)) ∧
    ∃ s0, trainInit Real.log exRNNRealTwo = .ok s0 ∧
      s0.smooth_loss = -Real.log (1 / (exRNNRealTwo.inputSize : ℝ)) ∧
      ∀ fuel : Nat,
        Train Real.log exRNNRealTwo exReader (trainFwd Real.tanh id exRNNRealTwo) (fuel + 1)
            = .error (.indexOutOfRange 0 0) ∧
        trainCalls exRNNRealTwo exReader (trainFwd Real.tanh id exRNNRealTwo) (fuel + 1) s0 =
          [⟨s0.smooth_loss, s0.hprev, (exReader 0).2.2, (exReader 0).1, (exReader 0).2.1, 1⟩] := by
  have hlog : ∀ x : ℝ, 0 < x → x ≤ 1 / 2 → Real.log x < -(1 / 100) := by
    intro x h0 h
    have := threshold_lt_neg_log_real x h0 h
    have ht : (threshold : ℝ) = 1 / 100 := rfl
    rw [ht] at this
    linarith
  exact ⟨⟨by decide, by decide, hlog⟩,
    train_panics_in_first_window Real.log Real.tanh id exRNNRealTwo exReader (by decide)
      (by decide) hlog⟩

/-- Claim C15 as stated fails: for the equal positive sizes
`hiddenSize = inputSize = 2^31`, `New` does not return; its first statement,
`make([]float64, hiddenSize*inputSize)` with `2^62` elements, panics. -/
theorem New_equal_sizes_can_panic :
    (0 : Int) < 2 ^ 31 ∧
    New (F := ℚ) id (fun _ => 1 / 2) (2 ^ 31) (2 ^ 31) 1 1 = .error .makeLenOutOfRange ∧
    ¬ ((∃ r, New (F := ℚ) id (fun _ => 1 / 2) (2 ^ 31) (2 ^ 31) 1 1 = .ok r) ↔
        (2 ^ 31 : Int) = 2 ^ 31) := by
  have h : New (F := ℚ) id (fun _ => 1 / 2) (2 ^ 31) (2 ^ 31) 1 1 = .error .makeLenOutOfRange := by
    simp [New, makeSlice, allocCheck, maxSliceLen, wrap64, bind, Except.bind]
  refine ⟨by norm_num, h, ?_⟩
  rw [h]
  simp

/-- Claim C15, amended: for positive sizes whose products
`hiddenSize * inputSize` and `hiddenSize * hiddenSize` are lengths that `make`
accepts, `New` returns if and only if `hiddenSize = inputSize`; when
`hiddenSize < inputSize` the loop that fills `wNums` panics with an index out
of range, when `hiddenSize > inputSize` the construction of `w` over `vNums`
panics with `ErrShape`; and whenever `New` returns, `w` is the same matrix as
`v`, entry for entry. -/
theorem New_returns_iff_sizes_equal_within_limit (sqrt : F → F) (rnd : Nat → F)
    (hiddenSize inputSize seqLength learningRate : Int)
    (hH : 0 < hiddenSize) (hI : 0 < inputSize)
    (hHI : hiddenSize * inputSize ≤ maxSliceLen)
    (hHH : hiddenSize * hiddenSize ≤ maxSliceLen) :
    ((∃ r, New sqrt rnd hiddenSize inputSize seqLength learningRate = .ok r) ↔
        hiddenSize = inputSize) ∧
      (hiddenSize < inputSize →
        New sqrt rnd hiddenSize inputSize seqLength learningRate =
          .error (.indexOutOfRange (hiddenSize * hiddenSize)
            (hiddenSize * hiddenSize).toNat)) ∧
      (inputSize < hiddenSize →
        New sqrt rnd hiddenSize inputSize seqLength learningRate = .error .ErrShape) ∧
      (∀ r, New sqrt rnd hiddenSize inputSize seqLength learningRate = .ok r →
        r.w = r.v ∧ r.w.data = r.v.data) := by
  obtain ⟨uNums, vNums, hulen, hvlen, hnew⟩ :=
    New_pos sqrt rnd hiddenSize inputSize seqLength learningRate hH hI hHI hHH
  have pHH : 0 < hiddenSize * hiddenSize := Int.mul_pos hH hH
  have pIH : 0 < inputSize * hiddenSize := Int.mul_pos hI hH
  have wHH : wrap64 (hiddenSize * hiddenSize) = hiddenSize * hiddenSize :=
    wrap64_small _ (by omega) hHH
  have hlt : hiddenSize < inputSize →
      New sqrt rnd hiddenSize inputSize seqLength learningRate =
        .error (.indexOutOfRange (hiddenSize * hiddenSize)
          (hiddenSize * hiddenSize).toNat) := by
    intro h
    have hmul : hiddenSize * hiddenSize < inputSize * hiddenSize :=
      Int.mul_lt_mul_of_pos_right h hH
    have hover := fillLoop_overrun (-(sqrt (1 / (hiddenSize : F))))
      (2 * sqrt (1 / (hiddenSize : F))) rnd (uNums.length + vNums.length) vNums.length 0
      (List.replicate (hiddenSize * hiddenSize).toNat 0) (by omega)
      (by rw [List.length_replicate]; omega)
    rw [List.length_replicate] at hover
    have hcast : (((hiddenSize * hiddenSize).toNat : Nat) : Int) = hiddenSize * hiddenSize := by
      omega
    rw [hnew, hover, hcast]
    rfl
  have hge : inputSize ≤ hiddenSize →
      New sqrt rnd hiddenSize inputSize seqLength learningRate =
        if hiddenSize = inputSize then
          .ok ⟨hiddenSize, inputSize, seqLength, learningRate,
            ⟨hiddenSize.toNat, inputSize.toNat, uNums⟩,
            ⟨inputSize.toNat, hiddenSize.toNat, vNums⟩,
            ⟨hiddenSize.toNat, hiddenSize.toNat, vNums⟩,
            List.replicate hiddenSize.toNat 0, List.replicate inputSize.toNat 0⟩
        else .error .ErrShape := by
    intro h
    have hmul : inputSize * hiddenSize ≤ hiddenSize * hiddenSize :=
      Int.mul_le_mul_of_nonneg_right h (by omega)
    obtain ⟨w1, hw1, -⟩ := fillLoop_ok (-(sqrt (1 / (hiddenSize : F))))
      (2 * sqrt (1 / (hiddenSize : F))) rnd (uNums.length + vNums.length) vNums.length 0
      (List.replicate (hiddenSize * hiddenSize).toNat 0)
      (by rw [List.length_replicate]; omega)
    rw [hnew, hw1, NewDense_some hiddenSize hiddenSize vNums hH hH, wHH]
    by_cases he : hiddenSize = inputSize
    · have hc : ¬ (hiddenSize * hiddenSize ≠ (vNums.length : Int)) := by
        rw [hvlen, ← he]; omega
      rw [if_neg hc, if_pos he]
      rfl
    · have hne : hiddenSize * hiddenSize ≠ inputSize * hiddenSize := by
        intro hcontra
        exact he (Int.eq_of_mul_eq_mul_right (by omega) hcontra)
      have hc : hiddenSize * hiddenSize ≠ (vNums.length : Int) := by
        rw [hvlen]; omega
      rw [if_pos hc, if_neg he]
      rfl
  have hgt : inputSize < hiddenSize →
      New sqrt rnd hiddenSize inputSize seqLength learningRate = .error .ErrShape := by
    intro h
    rw [hge (by omega), if_neg (by omega)]
  refine ⟨⟨?_, ?_⟩, hlt, hgt, ?_⟩
  · rintro ⟨r, hr⟩
    rcases lt_trichotomy hiddenSize inputSize with h | h | h
    · rw [hlt h] at hr; cases hr
    · exact h
    · rw [hgt h] at hr; cases hr
  · intro he
    rw [hge (by omega), if_pos he]
    exact ⟨_, rfl⟩
  · intro r hr
    rcases lt_trichotomy hiddenSize inputSize with h | h | h
    · rw [hlt h] at hr; cases hr
    · rw [hge (by omega), if_pos h] at hr
      cases hr
      subst h
      exact ⟨rfl, rfl⟩
    · rw [hgt h] at hr; cases hr

/-- Witness of `New_returns_iff_sizes_equal_within_limit`: sizes `(2, 2)`,
`(2, 3)` and `(3, 2)` over `ℚ`, with the identity for `math.Sqrt` and every
random draw equal to `1/2`. -/
theorem New_returns_iff_sizes_equal_within_limit_witness :
    ((0 : Int) < 2 ∧ (0 : Int) < 3 ∧ (2 : Int) * 2 ≤ maxSliceLen ∧
      (2 : Int) * 3 ≤ maxSliceLen ∧ (3 : Int) * 2 ≤ maxSliceLen ∧
      (3 : Int) * 3 ≤ maxSliceLen) ∧
    ((∃ r, New (F := ℚ) id (fun _ => 1/2) 2 2 1 1 = .ok r) ↔ (2 : Int) = 2) ∧
    ((2 : Int) < 3 ∧
      New (F := ℚ) id (fun _ => 1/2) 2 3 1 1 =
        .error (.indexOutOfRange ((2 : Int) * 2) ((2 : Int) * 2).toNat)) ∧
    ((2 : Int) < 3 ∧ New (F := ℚ) id (fun _ => 1/2) 3 2 1 1 = .error .ErrShape) ∧
    (∀ r, New (F := ℚ) id (fun _ => 1/2) 2 2 1 1 = .ok r → r.w = r.v ∧ r.w.data = r.v.data) :=
  ⟨⟨by decide, by decide, by decide, by decide, by decide, by decide⟩,
    (New_returns_iff_sizes_equal_within_limit id (fun _ => 1/2) 2 2 1 1 (by decide) (by decide)
      (by decide) (by decide)).1,
    ⟨by decide,
      (New_returns_iff_sizes_equal_within_limit id (fun _ => 1/2) 2 3 1 1 (by decide)
        (by decide) (by decide) (by decide)).2.1 (by decide)⟩,
    ⟨by decide,
      (New_returns_iff_sizes_equal_within_limit id (fun _ => 1/2) 3 2 1 1 (by decide)
        (by decide) (by decide) (by decide)).2.2.1 (by decide)⟩,
    (New_returns_iff_sizes_equal_within_limit id (fun _ => 1/2) 2 2 1 1 (by decide) (by decide)
      (by decide) (by decide)).2.2.2⟩

end Claims

section ApplyClaim

variable {F : Type}

/-- Claim C16: `apply(v, f)` writes index 1 only. On three or more entries
it returns `v` with entry 1 replaced by `f` of the old last entry; on two
entries `[x, y]` it returns `[x, f (f x)]`; on one entry it panics with the
vector index-out-of-range error of `SetVec`; whenever it returns, every entry
at an index other than 1 is unchanged; and if its result is the element-wise
map of `f` over `v`, then `f` fixes every entry of `v` at an index other than
1. -/
theorem apply_writes_index_one_only (v : Vec F) (f : F → F) :
    (∀ h : 3 ≤ v.length,
        apply v f = .ok (v.set 1 (f (v.get ⟨v.length - 1, by omega⟩)))) ∧
      (∀ x y : F, v = [x, y] → apply v f = .ok [x, f (f x)]) ∧
      (v.length = 1 → apply v f = .error .ErrVectorAccess) ∧
      (∀ r : Vec F, apply v f = .ok r →
        r.length = v.length ∧ ∀ i : Nat, i ≠ 1 → r[i]? = v[i]?) ∧
      (apply v f = .ok (v.map f) →
        ∀ (i : Nat) (x : F), i ≠ 1 → v[i]? = some x → f x = x) := by
  have frame : ∀ r : Vec F, apply v f = .ok r →
      r.length = v.length ∧ ∀ i : Nat, i ≠ 1 → r[i]? = v[i]? := by
    intro r hr
    match v, hr with
    | [], hr => cases hr; exact ⟨rfl, fun _ _ => rfl⟩
    | [x], hr => rw [apply_singleton] at hr; cases hr
    | [x, y], hr =>
      rw [apply_pair] at hr
      cases hr
      refine ⟨rfl, ?_⟩
      intro i hi
      match i, hi with
      | 0, _ => rfl
      | i + 2, _ => rfl
    | x :: y :: z :: rest, hr =>
      rw [apply_three_or_more f _ (by simp)] at hr
      cases hr
      refine ⟨by simp, ?_⟩
      intro i hi
      exact List.getElem?_set_ne (Ne.symm hi)
  refine ⟨fun h => apply_three_or_more f v h, ?_, ?_, frame, ?_⟩
  · rintro x y rfl
    exact apply_pair f x y
  · intro h1
    match v, h1 with
    | [x], _ => exact apply_singleton f x
  · intro hmap i x hi hx
    have h2 := (frame _ hmap).2 i hi
    rw [List.getElem?_map, hx] at h2
    simpa using h2

/-- Witness of `apply_writes_index_one_only` over `ℚ`, with doubling for
`f`. -/
theorem apply_writes_index_one_only_witness :
    apply ([5, 7, 9, 20] : Vec ℚ) (fun x => 2 * x) = .ok [5, 40, 9, 20] ∧
    apply ([5, 7] : Vec ℚ) (fun x => 2 * x) = .ok [5, 20] ∧
    apply ([5] : Vec ℚ) (fun x => 2 * x) = .error .ErrVectorAccess ∧
    (([5, 40, 9, 20] : Vec ℚ)[2]? = ([5, 7, 9, 20] : Vec ℚ)[2]?) ∧
    apply ([0, 0, 0] : Vec ℚ) (fun x => 2 * x) = .ok (([0, 0, 0] : Vec ℚ).map fun x => 2 * x) ∧
    (2 : ℚ) * 0 = 0 := by
  have h4 : apply ([5, 7, 9, 20] : Vec ℚ) (fun x => 2 * x) = .ok [5, 40, 9, 20] := by
    have := (apply_writes_index_one_only ([5, 7, 9, 20] : Vec ℚ) (fun x => 2 * x)).1 (by decide)
    rw [this]
    norm_num
  have h0 : apply ([0, 0, 0] : Vec ℚ) (fun x => 2 * x)
      = .ok (([0, 0, 0] : Vec ℚ).map fun x => 2 * x) := by
    have := (apply_writes_index_one_only ([0, 0, 0] : Vec ℚ) (fun x => 2 * x)).1 (by decide)
    rw [this]
    norm_num
  refine ⟨h4, ?_, ?_, ?_, h0, ?_⟩
  · have := (apply_writes_index_one_only ([5, 7] : Vec ℚ) (fun x => 2 * x)).2.1 5 7 rfl
    rw [this]
    norm_num
  · exact (apply_writes_index_one_only ([5] : Vec ℚ) (fun x => 2 * x)).2.2.1 rfl
  · exact ((apply_writes_index_one_only ([5, 7, 9, 20] : Vec ℚ) (fun x => 2 * x)).2.2.2.1 _
      h4).2 2 (by decide)
  · exact (apply_writes_index_one_only ([0, 0, 0] : Vec ℚ) (fun x => 2 * x)).2.2.2.2 h0 0 0
      (by decide) rfl

end ApplyClaim

end PromML
